import Mathlib

/-!
Verification of `Aligner/CodecAlignerDataset.py` (IMS-Toucan).

The file embeds the corpus-construction pipeline of `CodecAlignerDataset`:
the in-place Fisher-Yates shuffle, the contiguous-slice work partition,
the per-sample filter and feature-extraction loop run by each worker
(`cache_builder_process`), the corpus assembler and speaker-embedding
second pass, the cache save/load branch of `__init__`, and the indexed
`__getitem__` view.

External collaborators (soundfile, the resampler, the text frontend, the
codec, the speaker-embedding model) are modelled as function fields of an
`Env` record: the claims under verification are about the control flow and
data flow of this file, which treats those collaborators as opaque.
Waveforms are sequences of rationals (floats abstracted), durations are
rationals, transcripts are character lists so that Python's `str.strip()`
is the computable `stripped` below.
-/

namespace CodecAligner

/-- A waveform: the sample values, as rationals standing in for floats. -/
abbrev Wave := List ℚ

/-- Python `str.strip()`: remove leading and trailing whitespace. -/
def stripped (t : List Char) : List Char :=
  ((t.dropWhile Char.isWhitespace).reverse.dropWhile Char.isWhitespace).reverse

/-- `lst[i], lst[j] = lst[j], lst[i]` on a list; out-of-range indices leave
the list unchanged (they never occur in the shuffle below). -/
def listSwap (l : List α) (i j : ℕ) : List α :=
  match l[i]?, l[j]? with
  | some a, some b => (l.set i b).set j a
  | _, _ => l

/-- The loop of `fisher_yates_shuffle`: `for i in range(len(lst)-1, 0, -1)`,
`j = random.randint(0, i)`, swap positions `i` and `j`.  `rand i % (i+1)`
models the inclusive draw from `[0, i]`; `rand` is the random source. -/
def fyLoop (rand : ℕ → ℕ) : ℕ → List α → List α
  | 0, l => l
  | i + 1, l => fyLoop rand i (listSwap l (i + 1) (rand (i + 1) % (i + 1 + 1)))

/-- `fisher_yates_shuffle(lst)` from the source: in-place shuffle,
returned here as the final list value. -/
def fisher_yates_shuffle (rand : ℕ → ℕ) (l : List α) : List α :=
  fyLoop rand (l.length - 1) l

/-- The worker partition built in `__init__`:
`key_list[i * len(key_list) // loading_processes : (i+1) * len(key_list) // loading_processes]`
for `i in range(loading_processes)`.  A Python slice `lst[a:b]` is
`(lst.take b).drop a`. -/
def key_splits (key_list : List α) (loading_processes : ℕ) : List (List α) :=
  (List.range loading_processes).map (fun i =>
    (key_list.take ((i + 1) * key_list.length / loading_processes)).drop
      (i * key_list.length / loading_processes))

/-- Failure modes of the text frontend: `KeyError` (unknown symbol in
strict mode, or syllabification failure) and `ValueError`
(syllabification failure). -/
inductive EncErr
  | keyError
  | valueError
deriving DecidableEq, Repr

/-- One extracted sample, as appended to `process_internal_dataset_chunk`:
`[cached_text, cached_speech, norm_wave.cpu().detach().numpy(), path]`. -/
structure Datapoint where
  cached_text : List ℤ
  cached_speech : List (List ℤ)
  norm_wave : Wave
  path : String
deriving DecidableEq, Repr

/-- The external collaborators of `CodecAlignerDataset`, as opaque
functions.  `readAudio` is `sf.read` (`none` = raised exception),
`resample16k sr w` is the `Resample(orig_freq=sr, new_freq=16000)` module
applied to `w` (`none` = `ValueError`), `encodeStrict` / `encodePermissive`
are `tf.string_to_tensor` with `handle_missing` False / True,
`audioToCodes` is `ap.audio_to_codebook_indexes` (already transposed to a
`[time, depth]` integer grid), `embed` is the ECAPA speaker-embedding
model, `idSequence` is `tf.text_vectors_to_id_sequence`, and
`decodeFrames` is `ap.indexes_to_codec_frames`. -/
structure Env where
  transcriptOf : String → List Char
  readAudio : String → Option (Wave × ℕ)
  resample16k : ℕ → Wave → Option Wave
  encodeStrict : List Char → Bool → Except EncErr (List ℤ)
  encodePermissive : List Char → Bool → Except EncErr (List ℤ)
  audioToCodes : Wave → ℕ → List (List ℤ)
  embed : Wave → List ℚ
  idSequence : List ℤ → List ℤ
  decodeFrames : List (List ℤ) → List (List ℚ)

/-- Lines 159-171 of the source: try strict encoding; on `KeyError` retry
with `handle_missing=True` and keep the result only when
`allow_unknown_symbols`; any `ValueError` or `KeyError` escaping that
skips the sample (`none`). -/
def encodeTranscript (env : Env) (transcript : List Char)
    (phone_input allow_unknown_symbols : Bool) : Option (List ℤ) :=
  match env.encodeStrict transcript phone_input with
  | Except.ok toks => some toks
  | Except.error EncErr.keyError =>
    match env.encodePermissive transcript phone_input with
    | Except.ok toks => if allow_unknown_symbols then some toks else none
    | Except.error _ => none
  | Except.error EncErr.valueError => none

/-- The body of the `for path in tqdm(path_list)` loop of
`cache_builder_process`: returns the datapoint appended for `path`, or
`none` when any `continue` is taken. -/
def processPath (env : Env) (assumed_sr : ℕ) (min_len max_len : ℚ)
    (phone_input allow_unknown_symbols : Bool) (path : String) : Option Datapoint :=
  if stripped (env.transcriptOf path) = [] then none else
  match env.readAudio path with
  | none => none
  | some (wave, sr) =>
    if sr ≠ assumed_sr then none else
    if ¬ (min_len ≤ (wave.length : ℚ) / (sr : ℚ) ∧ (wave.length : ℚ) / (sr : ℚ) ≤ max_len)
      then none else
    match env.resample16k assumed_sr wave with
    | none => none
    | some norm_wave =>
      if ¬ (min_len ≤ (norm_wave.length : ℚ) / 16000 ∧
            (norm_wave.length : ℚ) / 16000 ≤ max_len) then none else
      match encodeTranscript env (env.transcriptOf path) phone_input allow_unknown_symbols with
      | none => none
      | some toks => some ⟨toks, env.audioToCodes wave sr, norm_wave, path⟩

/-- `cache_builder_process(path_list, ...)`: probe `path_list[0]` for the
assumed sample rate (an `IndexError` on an empty partition or an exception
from `sf.read` is unguarded, so the worker dies and appends nothing:
`none`), then run the per-path loop and append the accumulated chunk to
the result pool once (`some chunk`). -/
def cache_builder_process (env : Env) (path_list : List String)
    (min_len max_len : ℚ) (phone_input allow_unknown_symbols : Bool) :
    Option (List Datapoint) :=
  match path_list with
  | [] => none
  | p0 :: _ =>
    match env.readAudio p0 with
    | none => none
    | some (_, sr) =>
      some (path_list.filterMap
        (processPath env sr min_len max_len phone_input allow_unknown_symbols))

/-- `text_tensors = [torch.ShortTensor(x[0]) for x in self.result_pool]`
(the tensor conversion is the identity on the integer contents). -/
def text_tensors (pool : List Datapoint) : List (List ℤ) :=
  pool.map (fun x => x.cached_text)

/-- `speech_tensors = [torch.ShortTensor(x[1]) for x in self.result_pool]`. -/
def speech_tensors (pool : List Datapoint) : List (List (List ℤ)) :=
  pool.map (fun x => x.cached_speech)

/-- `norm_waves = [torch.Tensor(x[2]) for x in self.result_pool]`. -/
def norm_waves (pool : List Datapoint) : List Wave :=
  pool.map (fun x => x.norm_wave)

/-- `filepaths = [x[3] for x in self.result_pool]`. -/
def filepaths (pool : List Datapoint) : List String :=
  pool.map (fun x => x.path)

/-- `self.datapoints = list(zip(text_tensors, speech_tensors))`. -/
def assembled_datapoints (pool : List Datapoint) : List (List ℤ × List (List ℤ)) :=
  (text_tensors pool).zip (speech_tensors pool)

/-- The second pass `for wave in tqdm(norm_waves):
self.speaker_embeddings.append(...encode_batch(wave)...)`: one embedding
per pooled datapoint, in list order. -/
def speaker_embeddings_of (env : Env) (pool : List Datapoint) : List (List ℚ) :=
  (norm_waves pool).map env.embed

/-- The on-disk blob written by
`torch.save((self.datapoints, None, self.speaker_embeddings, filepaths), ...)`. -/
structure CacheBlob where
  datapoints : List (List ℤ × List (List ℤ))
  reserved : Option Unit
  speaker_embeddings : List (List ℚ)
  filepaths : List String
deriving DecidableEq, Repr

/-- Serialize the corpus: the saved four-tuple, with `None` in the
reserved slot. -/
def saveCache (datapoints : List (List ℤ × List (List ℤ)))
    (speaker_embeddings : List (List ℚ)) (filepaths : List String) : CacheBlob :=
  ⟨datapoints, none, speaker_embeddings, filepaths⟩

/-- The load branch of `__init__`: `torch.load(...)` then
`self.speaker_embeddings = self.datapoints[2]` and
`self.datapoints = self.datapoints[0]`. -/
def loadCache (blob : CacheBlob) :
    List (List ℤ × List (List ℤ)) × List (List ℚ) :=
  (blob.datapoints, blob.speaker_embeddings)

/-- Lines 98-101 of the source: `if len(self.datapoints) == 0: raise
RuntimeError` and only otherwise `torch.save(...)`.  The first component
is the outcome (`Except.error ()` = the raised `RuntimeError`), the
second is the cache file afterwards (`oldCache` untouched on the raise). -/
def finishBuild (oldCache : Option CacheBlob)
    (datapoints : List (List ℤ × List (List ℤ)))
    (speaker_embeddings : List (List ℚ)) (filepaths : List String) :
    Except Unit CacheBlob × Option CacheBlob :=
  if datapoints.length = 0 then
    (Except.error (), oldCache)
  else
    (Except.ok (saveCache datapoints speaker_embeddings filepaths),
     some (saveCache datapoints speaker_embeddings filepaths))

/-- Outcome of `__init__`: the two in-memory lists plus a flag recording
whether the build branch (worker pool, shuffle, partition, extraction)
was entered. -/
structure InitResult where
  datapoints : List (List ℤ × List (List ℤ))
  speaker_embeddings : List (List ℚ)
  ranPipeline : Bool
deriving DecidableEq, Repr

/-- The branch at line 33 of the source:
`if not os.path.exists(cache file) or rebuild_cache:` run the whole build
(the `build` thunk), `else` load the blob.  `cacheFile = none` models a
missing `aligner_train_cache.pt`. -/
def initDataset (cacheFile : Option CacheBlob) (rebuild_cache : Bool)
    (build : Unit → List (List ℤ × List (List ℤ)) × List (List ℚ)) : InitResult :=
  match cacheFile, rebuild_cache with
  | some blob, false =>
    { datapoints := blob.datapoints
      speaker_embeddings := blob.speaker_embeddings
      ranPipeline := false }
  | _, _ =>
    { datapoints := (build ()).1
      speaker_embeddings := (build ()).2
      ranPipeline := true }

/-- The dataset view backing `__getitem__`. -/
structure DatasetView where
  datapoints : List (List ℤ × List (List ℤ))
  speaker_embeddings : List (List ℚ)

/-- `__getitem__(index)`: tokens via `text_vectors_to_id_sequence`,
derived lengths, codec decoding of the stored speech indexes, and the
speaker embedding at the same index. -/
def getitem (env : Env) (ds : DatasetView) (index : ℕ)
    (h1 : index < ds.datapoints.length)
    (h2 : index < ds.speaker_embeddings.length) :
    List ℤ × ℕ × List (List ℚ) × ℕ × List ℚ :=
  let text_vector := (ds.datapoints.get ⟨index, h1⟩).1
  let tokens := env.idSequence text_vector
  let token_len := tokens.length
  let speech_indexes := (ds.datapoints.get ⟨index, h1⟩).2
  let speech_len := speech_indexes.length
  let speech := env.decodeFrames speech_indexes
  (tokens, token_len, speech, speech_len, ds.speaker_embeddings.get ⟨index, h2⟩)

/-- A concrete environment used to exercise the definitions: every file
reads as a 2-sample wave at 1 Hz, resampling yields an empty wave, and
the text frontend always succeeds strictly. -/
def envBase : Env where
  transcriptOf := fun _ => ['h', 'i']
  readAudio := fun _ => some ([0, 0], 1)
  resample16k := fun _ _ => some []
  encodeStrict := fun _ _ => Except.ok [3]
  encodePermissive := fun _ _ => Except.ok [3]
  audioToCodes := fun _ _ => [[1]]
  embed := fun w => w
  idSequence := fun t => t
  decodeFrames := fun _ => [[0]]

/-- Like `envBase`, but strict text encoding hits an unknown symbol
(`KeyError`) while permissive encoding succeeds. -/
def envUnknown : Env :=
  { envBase with
    encodeStrict := fun _ _ => Except.error EncErr.keyError
    encodePermissive := fun _ _ => Except.ok [5] }

/-- Like `envBase`, but the file named `bad` cannot be read. -/
def envBadFile : Env :=
  { envBase with
    readAudio := fun p => if p = "bad" then none else some ([0, 0], 1) }

/-- A one-element flattened result pool used to exercise the assembler. -/
def poolA : List Datapoint := [⟨[3], [[1]], [0], "w"⟩]

theorem get_cons_set_perm (xs : List α) (k : ℕ) (hk : k < xs.length) (x : α) :
    (xs.get ⟨k, hk⟩ :: xs.set k x).Perm (x :: xs) := by
  induction xs generalizing k with
  | nil => simp at hk
  | cons c cs ih =>
    cases k with
    | zero => exact List.Perm.swap x c cs
    | succ m =>
      have h2 : m < cs.length := by simpa using hk
      show (cs.get ⟨m, h2⟩ :: c :: cs.set m x).Perm (x :: c :: cs)
      have step1 : (cs.get ⟨m, h2⟩ :: c :: cs.set m x).Perm
          (c :: cs.get ⟨m, h2⟩ :: cs.set m x) := List.Perm.swap _ _ _
      have step3 : (c :: cs.get ⟨m, h2⟩ :: cs.set m x).Perm (c :: x :: cs) := (ih m h2).cons c
      have step4 : (c :: x :: cs).Perm (x :: c :: cs) := List.Perm.swap _ _ _
      exact (step1.trans step3).trans step4

theorem set_set_perm (l : List α) (i j : ℕ) (hi : i < l.length) (hj : j < l.length) :
    ((l.set i (l.get ⟨j, hj⟩)).set j (l.get ⟨i, hi⟩)).Perm l := by
  induction l generalizing i j with
  | nil => simp at hi
  | cons c cs ih =>
    cases i with
    | zero =>
      cases j with
      | zero => simp
      | succ m =>
        have hm : m < cs.length := by simpa using hj
        show (cs.get ⟨m, hm⟩ :: cs.set m c).Perm (c :: cs)
        exact get_cons_set_perm cs m hm c
    | succ k =>
      have hk : k < cs.length := by simpa using hi
      cases j with
      | zero =>
        show (cs.get ⟨k, hk⟩ :: cs.set k c).Perm (c :: cs)
        exact get_cons_set_perm cs k hk c
      | succ m =>
        have hm : m < cs.length := by simpa using hj
        show (c :: (cs.set k (cs.get ⟨m, hm⟩)).set m (cs.get ⟨k, hk⟩)).Perm (c :: cs)
        exact (ih k m hk hm).cons c

theorem listSwap_perm (l : List α) (i j : ℕ) : (listSwap l i j).Perm l := by
  unfold listSwap
  split
  next a b ha hb =>
    obtain ⟨hi, hia⟩ := List.getElem?_eq_some.mp ha
    obtain ⟨hj, hjb⟩ := List.getElem?_eq_some.mp hb
    have hae : a = l.get ⟨i, hi⟩ := hia.symm
    have hbe : b = l.get ⟨j, hj⟩ := hjb.symm
    rw [hae, hbe]
    exact set_set_perm l i j hi hj
  next =>
    exact List.Perm.refl l

theorem fyLoop_perm (rand : ℕ → ℕ) (i : ℕ) (l : List α) : (fyLoop rand i l).Perm l := by
  induction i generalizing l with
  | zero => exact List.Perm.refl l
  | succ n ih => exact (ih _).trans (listSwap_perm l (n + 1) (rand (n + 1) % (n + 1 + 1)))

/-- C1: `fisher_yates_shuffle` rearranges every input list into a
permutation of its original contents (the multiset of elements is
unchanged), and for lists of length 0 or 1 it leaves the list exactly
equal to its input. -/
theorem fisher_yates_shuffle_spec (rand : ℕ → ℕ) (l : List α) :
    (fisher_yates_shuffle rand l).Perm l ∧
      (l.length ≤ 1 → fisher_yates_shuffle rand l = l) := by
  constructor
  · exact fyLoop_perm rand (l.length - 1) l
  · intro h
    unfold fisher_yates_shuffle
    have hz : l.length - 1 = 0 := by omega
    rw [hz, fyLoop]

/-- Witness for C1: the shuffle applied to a singleton list. -/
theorem fisher_yates_shuffle_spec_witness :
    fisher_yates_shuffle (fun i => i) [(5 : ℕ)] = [5] :=
  (fisher_yates_shuffle_spec (fun i => i) [(5 : ℕ)]).2 (by decide)

theorem add_div_le_succ (a b p : ℕ) (hp : 0 < p) : (a + b) / p ≤ a / p + b / p + 1 := by
  rw [Nat.add_div hp]
  split <;> omega

theorem key_splits_join_aux (l : List α) (p : ℕ) (_hp : 0 < p) (k : ℕ) (hk : k ≤ p) :
    ((List.range k).map (fun i =>
        (l.take ((i + 1) * l.length / p)).drop (i * l.length / p))).flatten
      = l.take (k * l.length / p) := by
  induction k with
  | zero => simp
  | succ n ih =>
    rw [List.range_succ, List.map_append, List.flatten_append, ih (by omega)]
    simp only [List.map_cons, List.map_nil, List.flatten_cons, List.flatten_nil, List.append_nil]
    have hab : n * l.length / p ≤ (n + 1) * l.length / p :=
      Nat.div_le_div_right (Nat.mul_le_mul_right _ (by omega))
    conv_lhs =>
      rw [show l.take (n * l.length / p)
            = (l.take ((n + 1) * l.length / p)).take (n * l.length / p) by
          rw [List.take_take, Nat.min_eq_left hab]]
    exact List.take_append_drop _ _

theorem key_splits_slice_length (l : List α) (p i : ℕ) (hp : 0 < p) (hi : i < p) :
    ((l.take ((i + 1) * l.length / p)).drop (i * l.length / p)).length
      = (i + 1) * l.length / p - i * l.length / p ∧
    l.length / p ≤ (i + 1) * l.length / p - i * l.length / p ∧
    (i + 1) * l.length / p - i * l.length / p ≤ l.length / p + 1 := by
  have hble : (i + 1) * l.length / p ≤ l.length := by
    have h1 : (i + 1) * l.length ≤ p * l.length := Nat.mul_le_mul_right _ (by omega)
    have h2 : (i + 1) * l.length / p ≤ p * l.length / p := Nat.div_le_div_right h1
    rwa [Nat.mul_div_cancel_left _ hp] at h2
  have hsplit : (i + 1) * l.length = i * l.length + l.length := by ring
  have hlow : i * l.length / p + l.length / p ≤ (i + 1) * l.length / p := by
    rw [hsplit]
    exact Nat.add_div_le_add_div _ _ _
  have hhigh : (i + 1) * l.length / p ≤ i * l.length / p + l.length / p + 1 := by
    rw [hsplit]
    exact add_div_le_succ _ _ _ hp
  have hlen : ((l.take ((i + 1) * l.length / p)).drop (i * l.length / p)).length
      = (i + 1) * l.length / p - i * l.length / p := by
    simp only [List.length_drop, List.length_take]
    set A := i * l.length / p
    set B := (i + 1) * l.length / p
    omega
  have hz1 : 0 ≤ i * l.length / p := Nat.zero_le _
  have hz2 : 0 ≤ (i + 1) * l.length / p := Nat.zero_le _
  have hz3 : 0 ≤ l.length / p := Nat.zero_le _
  exact ⟨hlen, by omega, by omega⟩

/-- C2: for every key list and worker count at least 1, the contiguous
slices `key_list[i*n//p : (i+1)*n//p]` concatenate back to the original
list (each key exactly once, no gaps or overlaps), and any two slice
sizes differ by at most one. -/
theorem key_splits_spec (l : List α) (p : ℕ) (hp : 1 ≤ p) :
    (key_splits l p).flatten = l ∧
      ∀ s ∈ key_splits l p, ∀ t ∈ key_splits l p, s.length ≤ t.length + 1 := by
  have hp0 : 0 < p := hp
  constructor
  · unfold key_splits
    rw [key_splits_join_aux l p hp0 p (le_refl p), Nat.mul_div_cancel_left _ hp0]
    exact List.take_length l
  · intro s hs t ht
    obtain ⟨i, hi, hsi⟩ := List.mem_map.mp hs
    obtain ⟨j, hj, htj⟩ := List.mem_map.mp ht
    have hi2 := key_splits_slice_length l p i hp0 (List.mem_range.mp hi)
    have hj2 := key_splits_slice_length l p j hp0 (List.mem_range.mp hj)
    rw [← hsi, ← htj]
    omega

/-- Witness for C2: three keys split across two workers concatenate back
to the original key list. -/
theorem key_splits_spec_witness :
    (key_splits ["a", "b", "c"] 2).flatten = ["a", "b", "c"] :=
  (key_splits_spec ["a", "b", "c"] 2 (by decide)).1

theorem processPath_some_inv (env : Env) (assumed_sr : ℕ) (mn mx : ℚ)
    (pI aU : Bool) (path : String) (d : Datapoint)
    (h : processPath env assumed_sr mn mx pI aU path = some d) :
    ∃ wave sr norm_wave toks,
      env.readAudio path = some (wave, sr) ∧
      sr = assumed_sr ∧
      ¬ stripped (env.transcriptOf path) = [] ∧
      (mn ≤ (wave.length : ℚ) / (sr : ℚ) ∧ (wave.length : ℚ) / (sr : ℚ) ≤ mx) ∧
      env.resample16k assumed_sr wave = some norm_wave ∧
      (mn ≤ (norm_wave.length : ℚ) / 16000 ∧ (norm_wave.length : ℚ) / 16000 ≤ mx) ∧
      encodeTranscript env (env.transcriptOf path) pI aU = some toks ∧
      d = ⟨toks, env.audioToCodes wave sr, norm_wave, path⟩ := by
  unfold processPath at h
  split at h
  next => exact absurd h (by simp)
  next h1 =>
    split at h
    next => exact absurd h (by simp)
    next wave sr hread =>
      split at h
      next => exact absurd h (by simp)
      next hsr =>
        split at h
        next => exact absurd h (by simp)
        next hdur1 =>
          split at h
          next => exact absurd h (by simp)
          next norm_wave hres =>
            split at h
            next => exact absurd h (by simp)
            next hdur2 =>
              split at h
              next => exact absurd h (by simp)
              next toks henc =>
                refine ⟨wave, sr, norm_wave, toks, hread, not_not.mp hsr, h1,
                  not_not.mp hdur1, hres, not_not.mp hdur2, henc, ?_⟩
                exact (Option.some.inj h).symm

/-- C3: every sample retained in a worker's accumulated chunk satisfies
the duration bounds both at the native sample rate (`len(wave)/sr`) and
after resampling to 16 kHz (`len(norm_wave)/16000`); a sample violating
either bound is skipped by `continue` and never enters the chunk. -/
theorem duration_filter_retained (env : Env) (path_list : List String)
    (mn mx : ℚ) (pI aU : Bool) (chunk : List Datapoint) (d : Datapoint)
    (hrun : cache_builder_process env path_list mn mx pI aU = some chunk)
    (hd : d ∈ chunk) :
    (mn ≤ (d.norm_wave.length : ℚ) / 16000 ∧ (d.norm_wave.length : ℚ) / 16000 ≤ mx) ∧
    ∃ wave sr, env.readAudio d.path = some (wave, sr) ∧
      mn ≤ (wave.length : ℚ) / (sr : ℚ) ∧ (wave.length : ℚ) / (sr : ℚ) ≤ mx := by
  unfold cache_builder_process at hrun
  split at hrun
  next => exact absurd hrun (by simp)
  next p0 rest =>
    split at hrun
    next => exact absurd hrun (by simp)
    next w0 sr0 hread0 =>
      have hchunk := Option.some.inj hrun
      rw [← hchunk] at hd
      obtain ⟨path, hmem, hsome⟩ := List.mem_filterMap.mp hd
      obtain ⟨wave, sr, norm_wave, toks, hread, hsr, htrim, hdur1, hres, hdur2, henc, hdval⟩ :=
        processPath_some_inv env sr0 mn mx pI aU path d hsome
      subst hdval
      exact ⟨hdur2, wave, sr, hread, hdur1.1, hdur1.2⟩

/-- Witness for C3: a concrete worker run in `envBase` retains one sample
whose durations pass the `[0, 15]` second bounds at both rates. -/
theorem duration_filter_retained_witness :
    ((0 : ℚ) ≤ (((Datapoint.mk [3] [[1]] [] "a").norm_wave.length : ℚ)) / 16000 ∧
      (((Datapoint.mk [3] [[1]] [] "a").norm_wave.length : ℚ)) / 16000 ≤ 15) ∧
    ∃ wave sr, envBase.readAudio (Datapoint.mk [3] [[1]] [] "a").path = some (wave, sr) ∧
      (0 : ℚ) ≤ (wave.length : ℚ) / (sr : ℚ) ∧ (wave.length : ℚ) / (sr : ℚ) ≤ 15 :=
  duration_filter_retained envBase ["a"] 0 15 false false
    [Datapoint.mk [3] [[1]] [] "a"] (Datapoint.mk [3] [[1]] [] "a")
    (by
      norm_num [cache_builder_process, processPath, encodeTranscript, envBase,
        stripped, List.filterMap]
      decide)
    (by simp)

/-- C4: for a sample passing every pre-encoding stage whose transcript
fails strict encoding with an unknown symbol (`KeyError`) but succeeds in
permissive mode, the sample is kept exactly when `allow_unknown_symbols`
is true; any other encoding failure (strict `ValueError`, or a permissive
retry that itself fails) skips the sample, and in either case the worker
still finishes and appends its chunk. -/
theorem unknown_symbol_policy (env : Env) (path : String) (rest : List String)
    (wave norm_wave : Wave) (sr : ℕ) (mn mx : ℚ) (pI : Bool)
    (h1 : ¬ stripped (env.transcriptOf path) = [])
    (h2 : env.readAudio path = some (wave, sr))
    (h3a : mn ≤ (wave.length : ℚ) / (sr : ℚ))
    (h3b : (wave.length : ℚ) / (sr : ℚ) ≤ mx)
    (h4 : env.resample16k sr wave = some norm_wave)
    (h5a : mn ≤ (norm_wave.length : ℚ) / 16000)
    (h5b : (norm_wave.length : ℚ) / 16000 ≤ mx) :
    (∀ toks : List ℤ,
        env.encodeStrict (env.transcriptOf path) pI = Except.error EncErr.keyError →
        env.encodePermissive (env.transcriptOf path) pI = Except.ok toks →
        ∀ aU : Bool, (processPath env sr mn mx pI aU path).isSome = aU) ∧
    (∀ (aU : Bool) (e : EncErr),
        (env.encodeStrict (env.transcriptOf path) pI = Except.error EncErr.valueError ∨
          (env.encodeStrict (env.transcriptOf path) pI = Except.error EncErr.keyError ∧
            env.encodePermissive (env.transcriptOf path) pI = Except.error e)) →
        processPath env sr mn mx pI aU path = none) ∧
    (∀ aU : Bool, (cache_builder_process env (path :: rest) mn mx pI aU).isSome = true) := by
  refine ⟨?_, ?_, ?_⟩
  · intro toks hstrict hperm aU
    simp only [processPath, encodeTranscript, h2, hstrict, hperm, if_neg h1]
    simp [h3a, h3b, h4, h5a, h5b]
    cases aU <;> simp
  · intro aU e hcase
    rcases hcase with hv | ⟨hk, hpe⟩
    · simp only [processPath, encodeTranscript, h2, hv, if_neg h1]
      simp [h3a, h3b, h4, h5a, h5b]
    · simp only [processPath, encodeTranscript, h2, hk, hpe, if_neg h1]
      simp [h3a, h3b, h4, h5a, h5b]
  · intro aU
    simp [cache_builder_process, h2]

/-- Witness for C4: in `envUnknown` the strict frontend raises on an
unknown symbol, the permissive one succeeds, and with
`allow_unknown_symbols = true` the sample is included. -/
theorem unknown_symbol_policy_witness :
    (processPath envUnknown 1 0 15 false true "a").isSome = true :=
  (unknown_symbol_policy envUnknown "a" [] [0, 0] [] 1 0 15 false
    (by decide) rfl (by norm_num) (by norm_num) rfl (by norm_num) (by norm_num)).1
    [5] rfl rfl true

/-- C5: when the pooled datapoint list is empty, construction raises the
fatal `RuntimeError` and the `torch.save` after it never runs, so the
cache file keeps whatever a prior run left there and no partial corpus is
persisted. -/
theorem empty_corpus_fatal (oldCache : Option CacheBlob)
    (speaker_embeddings : List (List ℚ)) (filepaths : List String) :
    finishBuild oldCache [] speaker_embeddings filepaths
      = (Except.error (), oldCache) := rfl

/-- C6: with an existing cache blob and `rebuild_cache = false`,
`__init__` takes the load branch: the build thunk (shuffle, partition,
worker pool, extraction) is not run and the stored datapoints and
speaker embeddings come back unchanged; the build branch runs exactly
when the blob is missing or `rebuild_cache` is true. -/
theorem cache_short_circuit (blob : CacheBlob)
    (build : Unit → List (List ℤ × List (List ℤ)) × List (List ℚ)) :
    initDataset (some blob) false build
      = { datapoints := blob.datapoints
          speaker_embeddings := blob.speaker_embeddings
          ranPipeline := false } ∧
    ∀ (cacheFile : Option CacheBlob) (rebuild_cache : Bool)
      (b : Unit → List (List ℤ × List (List ℤ)) × List (List ℚ)),
      ((initDataset cacheFile rebuild_cache b).ranPipeline = true
        ↔ (cacheFile = none ∨ rebuild_cache = true)) := by
  refine ⟨rfl, ?_⟩
  intro cacheFile rebuild_cache b
  cases cacheFile <;> cases rebuild_cache <;> simp [initDataset]

/-- C7: saving a corpus to the cache blob and reading it back yields
exactly the saved token sequences, speech-code matrices, speaker
embeddings and source-path list. -/
theorem cache_round_trip (datapoints : List (List ℤ × List (List ℤ)))
    (speaker_embeddings : List (List ℚ)) (filepaths : List String) :
    loadCache (saveCache datapoints speaker_embeddings filepaths)
        = (datapoints, speaker_embeddings) ∧
    (saveCache datapoints speaker_embeddings filepaths).datapoints = datapoints ∧
    (saveCache datapoints speaker_embeddings filepaths).speaker_embeddings
        = speaker_embeddings ∧
    (saveCache datapoints speaker_embeddings filepaths).filepaths = filepaths :=
  ⟨rfl, rfl, rfl, rfl⟩

/-- C9: a worker whose first partition file cannot be read dies before
the loop (no chunk reaches the result pool, no retry with the next file),
while a read failure on any later file only skips that sample: the worker
still appends its chunk. -/
theorem first_file_fatal (env : Env) (p0 : String) (rest : List String)
    (mn mx : ℚ) (pI aU : Bool) :
    (env.readAudio p0 = none →
      cache_builder_process env (p0 :: rest) mn mx pI aU = none) ∧
    ∀ wave sr, env.readAudio p0 = some (wave, sr) →
      cache_builder_process env (p0 :: rest) mn mx pI aU
          = some ((p0 :: rest).filterMap (processPath env sr mn mx pI aU)) ∧
      ∀ path, env.readAudio path = none →
        processPath env sr mn mx pI aU path = none := by
  constructor
  · intro h
    simp [cache_builder_process, h]
  · intro wave sr h
    constructor
    · simp [cache_builder_process, h]
    · intro path hp
      unfold processPath
      split
      · rfl
      · rw [hp]

/-- Witness for C9: in `envBadFile` the partition starting with the
unreadable file produces no chunk. -/
theorem first_file_fatal_witness :
    cache_builder_process envBadFile ["bad", "good"] 0 15 false false = none :=
  (first_file_fatal envBadFile "bad" ["good"] 0 15 false false).1 (by decide)

/-- C10: with more workers than keys at least one partition slice is
empty, and the worker given an empty partition dies on the unguarded
`path_list[0]` probe, appending no chunk. -/
theorem empty_partition_crash (env : Env) (l : List String) (p : ℕ)
    (mn mx : ℚ) (pI aU : Bool) (hp : l.length < p) :
    (∃ s ∈ key_splits l p, s = []) ∧
    cache_builder_process env [] mn mx pI aU = none := by
  constructor
  · refine ⟨(l.take ((0 + 1) * l.length / p)).drop (0 * l.length / p), ?_, ?_⟩
    · unfold key_splits
      exact List.mem_map.mpr ⟨0, List.mem_range.mpr (by omega), rfl⟩
    · have hz : l.length / p = 0 := Nat.div_eq_of_lt hp
      simp [hz]
  · rfl

/-- Witness for C10: two workers for a single key leave one worker with
an empty slice. -/
theorem empty_partition_crash_witness :
    (∃ s ∈ key_splits ["a"] 2, s = []) ∧
    cache_builder_process envBase [] 0 15 false false = none :=
  empty_partition_crash envBase ["a"] 2 0 15 false false (by decide)

/-- C8: for every valid index of the assembled corpus, the datapoint and
the speaker embedding at that index come from the same pooled sample: the
embedding list is the in-order image of the stored normalized waveforms
(the second pass), and `__getitem__` returns the embedding at the queried
index. -/
theorem index_alignment (env : Env) (pool : List Datapoint) (i : ℕ)
    (hi : i < pool.length) :
    (assembled_datapoints pool)[i]?
        = some ((pool.get ⟨i, hi⟩).cached_text, (pool.get ⟨i, hi⟩).cached_speech) ∧
    (speaker_embeddings_of env pool)[i]?
        = some (env.embed ((pool.get ⟨i, hi⟩).norm_wave)) ∧
    ∀ (h1 : i < (assembled_datapoints pool).length)
      (h2 : i < (speaker_embeddings_of env pool).length),
      (getitem env ⟨assembled_datapoints pool, speaker_embeddings_of env pool⟩
          i h1 h2).2.2.2.2
        = env.embed ((pool.get ⟨i, hi⟩).norm_wave) := by
  have hA : i < (assembled_datapoints pool).length := by
    simp only [assembled_datapoints, text_tensors, speech_tensors,
      List.length_zip, List.length_map, Nat.min_self]
    exact hi
  have hB : i < (speaker_embeddings_of env pool).length := by
    simp only [speaker_embeddings_of, norm_waves, List.length_map]
    exact hi
  refine ⟨?_, ?_, ?_⟩
  · rw [List.getElem?_eq_getElem hA]
    simp [assembled_datapoints, text_tensors, speech_tensors,
      List.getElem_zip, List.getElem_map, List.get_eq_getElem]
  · rw [List.getElem?_eq_getElem hB]
    simp [speaker_embeddings_of, norm_waves, List.getElem_map, List.get_eq_getElem]
  · intro h1 h2
    show (speaker_embeddings_of env pool).get ⟨i, h2⟩
        = env.embed ((pool.get ⟨i, hi⟩).norm_wave)
    simp [speaker_embeddings_of, norm_waves, List.get_eq_getElem, List.getElem_map]

/-- Witness for C8: on a one-element pool, `__getitem__ 0` returns the
embedding computed from that element's stored normalized waveform. -/
theorem index_alignment_witness :
    (getitem envBase ⟨assembled_datapoints poolA, speaker_embeddings_of envBase poolA⟩ 0
        (by decide) (by decide)).2.2.2.2 = [(0 : ℚ)] :=
  (index_alignment envBase poolA 0 (by decide)).2.2 (by decide) (by decide)

end CodecAligner
